import Mathlib

/-!
Shallow embedding of the gastown quota-rotation subsystem:
the quota state store (`internal/quota`), the reset-time grammar
(`ParseResetTime`), and the macOS keychain credential rotator and
token validator (`keychain_darwin.go`).

Go strings are modelled as Lean `String`s manipulated through their
`data` character lists (the relevant paths are ASCII, where byte
indexing and lexicographic byte comparison coincide with the
character-level model).  Go `time.Time` values are modelled as absolute
instants counted in minutes (`Int`), and a `time.Location` as its UTC
offset in minutes; `time.LoadLocation` is an uninterpreted zone table
`String → Option Int` supplied as a parameter.
-/

namespace Gastown

/-- The character class of Go's `unicode.IsSpace` restricted to ASCII,
used by `strings.TrimSpace`. -/
def isGoTrimSpace (c : Char) : Bool :=
  c = ' ' || c = '\t' || c = '\n' || c = '\r' || c = '\x0b' || c = '\x0c'

/-- The character class of `\s` in Go's `regexp` package: `[\t\n\f\r ]`. -/
def isRegexSpace (c : Char) : Bool :=
  c = ' ' || c = '\t' || c = '\n' || c = '\r' || c = '\x0c'

/-- ASCII word characters, the class `\w` used by the `\b` boundary
assertion in Go's `regexp` package. -/
def isWordChar (c : Char) : Bool :=
  c.isDigit || ('a' ≤ c && c ≤ 'z') || ('A' ≤ c && c ≤ 'Z') || c = '_'

/-- `strings.TrimSpace` on the character list. -/
def trimChars (l : List Char) : List Char :=
  ((l.dropWhile isGoTrimSpace).reverse.dropWhile isGoTrimSpace).reverse

/-- `strings.TrimSpace`. -/
def trimString (s : String) : String :=
  String.mk (trimChars s.data)

/-- Lexicographic byte-order comparison of Go strings (on ASCII data the
byte order and the character order coincide; on general UTF-8 they also
coincide because UTF-8 is order-preserving). This is Go's `<` on strings. -/
def lexLt : List Char → List Char → Bool
  | [], [] => false
  | [], _ :: _ => true
  | _ :: _, [] => false
  | a :: as, b :: bs =>
    if a < b then true
    else if b < a then false
    else lexLt as bs

/-- Go string `s < t`. -/
def goLt (s t : String) : Bool := lexLt s.data t.data

/-- The numeric value of a decimal digit string (the effect of
`fmt.Sscanf(s, "%d", &n)` on a string of digits). -/
def digitsToNat (s : String) : Nat :=
  s.data.foldl (fun a c => a * 10 + (c.toNat - 48)) 0

/-- Parsing a matched numeric group as a number: succeeds exactly on
non-empty all-digit strings (which is what `fmt.Sscanf` with `%d`
accepts among the strings the reset-time pattern can capture). -/
def parseNumGroup (s : String) : Option Nat :=
  if s.data ≠ [] && s.data.all Char.isDigit then some (digitsToNat s) else none

/-- `strings.ToLower` (ASCII). -/
def toLowerStr (s : String) : String :=
  String.mk (s.data.map Char.toLower)

/-! ## The reset-time grammar

The compiled pattern in the source is
`(?i)^(\d{1,2})(?::(\d{2}))?\s*(am|pm)\b`.  `matchReset` is a direct
functional rendering of that anchored pattern, including the greedy
1–2-digit hour with backtracking and the optional minute group. -/

/-- `\b` after the meridiem: the rest of the input must be empty or
start with a non-word character. -/
def boundaryOk : List Char → Bool
  | [] => true
  | c :: _ => !(isWordChar c)

/-- `(?i)(am|pm)`: two characters whose lowercasings are `a`/`p` then `m`. -/
def tryMeridiem : List Char → Option (String × List Char)
  | c1 :: c2 :: rest =>
    if (c1.toLower = 'a' || c1.toLower = 'p') && c2.toLower = 'm' then
      some (String.mk [c1, c2], rest)
    else none
  | _ => none

/-- `\s*(am|pm)\b`. -/
def matchSpacedMeridiem (l : List Char) : Option String :=
  match tryMeridiem (l.dropWhile isRegexSpace) with
  | some (mer, rest) => if boundaryOk rest then some mer else none
  | none => none

/-- `(?::(\d{2}))?\s*(am|pm)\b`: first try the optional minute group,
then backtrack to the bare meridiem. Returns (minute group, meridiem). -/
def matchTail (l : List Char) : Option (String × String) :=
  (match l with
   | ':' :: d1 :: d2 :: rest =>
     if d1.isDigit && d2.isDigit then
       (matchSpacedMeridiem rest).map (fun mer => (String.mk [d1, d2], mer))
     else none
   | _ => none)
  <|> (matchSpacedMeridiem l).map (fun mer => (("" : String), mer))

/-- The full anchored pattern, on the character list.  Returns (hour
group, minute group — empty when absent, meridiem group) exactly when
the pattern matches a prefix. -/
def matchResetList : List Char → Option (String × String × String)
  | c1 :: c2 :: rest =>
    if c1.isDigit then
      if c2.isDigit then
        ((matchTail rest).map (fun p => (String.mk [c1, c2], p.1, p.2)))
        <|> ((matchTail (c2 :: rest)).map (fun p => (String.mk [c1], p.1, p.2)))
      else (matchTail (c2 :: rest)).map (fun p => (String.mk [c1], p.1, p.2))
    else none
  | [c1] =>
    if c1.isDigit then (matchTail []).map (fun p => (String.mk [c1], p.1, p.2))
    else none
  | [] => none

/-- The full anchored pattern on a Go string. -/
def matchReset (s : String) : Option (String × String × String) :=
  matchResetList s.data

/-- The timezone-suffix extraction step of `ParseResetTime`:
`strings.Index(s, "(")`, `strings.Index(s, ")")`, and if a well-formed
`(zone)` is present, look the trimmed zone name up in the zone table
(`time.LoadLocation`), keeping the reference location on lookup failure,
and trim the text before the parenthesis.  Returns the remaining time
text and the resolution location (UTC offset in minutes). -/
def splitZone (zoneTable : String → Option Int) (refLoc : Int) (s : String) :
    String × Int :=
  let cs := s.data
  match cs.findIdx? (· = '(') with
  | none => (s, refLoc)
  | some idx =>
    match cs.findIdx? (· = ')') with
    | none => (s, refLoc)
    | some e =>
      if idx < e then
        let tzName := trimString (String.mk ((cs.drop (idx + 1)).take (e - idx - 1)))
        let loc := (zoneTable tzName).getD refLoc
        (trimString (String.mk (cs.take idx)), loc)
      else (s, refLoc)

/-- The civil day (day number since the epoch) of the instant `t`
(minutes) in a zone of UTC offset `off` minutes. -/
def civilDay (off t : Int) : Int := Int.fdiv (t + off) 1440

/-- The meridiem adjustment of `ParseResetTime`:
`pm` adds 12 unless the hour is 12, and `12am` becomes hour 0. -/
def adjHour (hour : Nat) (ampm : String) : Nat :=
  if ampm = "pm" && hour ≠ 12 then hour + 12
  else if ampm = "am" && hour = 12 then 0
  else hour

/-- `time.Date(year, month, day, hour, minute, 0, 0, loc)` where
`(year, month, day)` is the civil date of `reference` in `loc`:
normalisation of out-of-range fields is the linear formula
`day*1440 + hour*60 + minute`, converted back to an absolute instant by
subtracting the zone offset. -/
def resetInstant (loc reference : Int) (hour minute : Nat) : Int :=
  civilDay loc reference * 1440 + (hour : Int) * 60 + (minute : Int) - loc

/-- `ParseResetTime(resetsAt, reference)` from `internal/quota`:
trim, extract an optional `(zone)` suffix, match the hour/minute/meridiem
pattern, apply the 12am/12pm adjustment, and build the instant at
today's date (in the resolution zone) at the parsed time-of-day. -/
def ParseResetTime (zoneTable : String → Option Int) (resetsAt : String)
    (reference refLoc : Int) : Except String Int :=
  let s0 := trimString resetsAt
  let (core, loc) := splitZone zoneTable refLoc s0
  match matchReset core with
  | none => .error ("cannot parse reset time: " ++ core)
  | some (hs, ms, mer) =>
    let hour := digitsToNat hs
    let minute := if ms = "" then 0 else digitsToNat ms
    .ok (resetInstant loc reference (adjHour hour (toLowerStr mer)) minute)

/-! ## Quota state data model (`internal/config`, used by `internal/quota`)

The `config.AccountQuotaState` struct and the status string constants
live in `internal/config`, outside the packaged sources; their shape is
taken from the persisted-file description of the spec (§3, §6): a JSON
object with `status ∈ {"available", "limited", "cooldown", ""}` and
three timestamp strings.  A Go `map[string]AccountQuotaState` is
modelled as an association list with unique keys; reading a missing key
yields the zero value. -/

/-- Modelled from the spec: the `config.QuotaStatusAvailable` constant
(`internal/config` is not among the packaged sources; §6 of the spec
gives the persisted value). -/
def QuotaStatusAvailable : String := "available"

/-- Modelled from the spec: the `config.QuotaStatusLimited` constant. -/
def QuotaStatusLimited : String := "limited"

/-- Modelled from the spec: the `config.QuotaStatusCooldown` constant. -/
def QuotaStatusCooldown : String := "cooldown"

/-- Modelled from the spec: the integer schema tag
`config.CurrentQuotaVersion` (its concrete value is irrelevant to every
claim; only the symbol is used). -/
def CurrentQuotaVersion : Int := 1

/-- `config.AccountQuotaState`: per-account quota record.  The zero
value (all fields empty) is what a Go map read returns for a missing
key. -/
structure AccountQuotaState where
  status : String := ""
  limitedAt : String := ""
  resetsAt : String := ""
  lastUsed : String := ""
  deriving DecidableEq, Repr

/-- The `accounts` map of the quota state, as an entry list. -/
abbrev AccountsMap := List (String × AccountQuotaState)

/-- Go map read `accounts[handle]`: the first entry with the key, or the
zero value. -/
def lookupAcct (l : AccountsMap) (handle : String) : AccountQuotaState :=
  (((l.find? (fun p => p.1 = handle)).map Prod.snd)).getD {}

/-- Go map write `accounts[handle] = a`: replace the entry if the key is
present, otherwise append it. -/
def setAcct (l : AccountsMap) (handle : String) (a : AccountQuotaState) :
    AccountsMap :=
  if l.any (fun p => p.1 = handle) then
    l.map (fun p => if p.1 = handle then (handle, a) else p)
  else l ++ [(handle, a)]

/-- The state mutation inside `Manager.MarkLimited(handle, resetsAt)`:
replace the account's record with status `limited`, `limitedAt` set to
the current UTC timestamp `now`, the given `resetsAt`, and the account's
previous `lastUsed` carried over. -/
def markLimited (l : AccountsMap) (handle now resetsAt : String) : AccountsMap :=
  setAcct l handle
    { status := QuotaStatusLimited
      limitedAt := now
      resetsAt := resetsAt
      lastUsed := (lookupAcct l handle).lastUsed }

/-- The state mutation inside `Manager.MarkAvailable(handle)`: replace
the account's record with status `available` and only `lastUsed`
carried over (the other fields are zeroed). -/
def markAvailable (l : AccountsMap) (handle : String) : AccountsMap :=
  setAcct l handle
    { status := QuotaStatusAvailable
      lastUsed := (lookupAcct l handle).lastUsed }

/-- The per-account step of `clearExpiredAt`: a limited account with a
non-empty, parseable `resetsAt` whose reset instant is strictly before
`now` transitions to available (keeping `lastUsed`); every other
account is returned unchanged.  The boolean reports whether the account
was cleared. -/
def clearOne (zoneTable : String → Option Int) (refLoc now : Int)
    (a : AccountQuotaState) : AccountQuotaState × Bool :=
  if a.status ≠ QuotaStatusLimited then (a, false)
  else if a.resetsAt = "" then (a, false)
  else
    match ParseResetTime zoneTable a.resetsAt now refLoc with
    | .error _ => (a, false)
    | .ok resetTime =>
      if resetTime < now then
        ({ status := QuotaStatusAvailable, lastUsed := a.lastUsed }, true)
      else (a, false)

/-- `clearExpiredAt(m, state, now)`: sweep every account with `clearOne`
and count the cleared ones.  (The Go `range` loop writes each updated
record back under its own key, so the map-and-count rendering is exact
for the unique-key maps Go guarantees.)  `now.After(t)` is strict
comparison, and `now`'s own location is the reference location passed to
`ParseResetTime`. -/
def clearExpiredAt (zoneTable : String → Option Int) (refLoc : Int)
    (l : AccountsMap) (now : Int) : AccountsMap × Nat :=
  (l.map (fun p => (p.1, (clearOne zoneTable refLoc now p.2).1)),
   l.countP (fun p => (clearOne zoneTable refLoc now p.2).2))

/-- The claim-side expiry condition of `ClearExpired` (§4.2 of the
spec): status limited, non-empty `resetsAt` that the grammar parses,
and the parsed instant strictly before `now`. -/
def okBefore (e : Except String Int) (now : Int) : Prop :=
  ∃ rt, e = .ok rt ∧ rt < now

instance (e : Except String Int) (now : Int) : Decidable (okBefore e now) :=
  match e with
  | .ok rt =>
    decidable_of_iff (rt < now) (by simp [okBefore])
  | .error s => isFalse (by simp [okBefore])

/-- The spec's description of which accounts `ClearExpired` clears. -/
def expiredSpec (zoneTable : String → Option Int) (refLoc now : Int)
    (a : AccountQuotaState) : Prop :=
  a.status = QuotaStatusLimited ∧ a.resetsAt ≠ "" ∧
    okBefore (ParseResetTime zoneTable a.resetsAt now refLoc) now

instance (zoneTable : String → Option Int) (refLoc now : Int)
    (a : AccountQuotaState) : Decidable (expiredSpec zoneTable refLoc now a) :=
  inferInstanceAs (Decidable (_ ∧ _ ∧ _))

/-- One step of the insertion sort in `sortByLastUsed`: the Go inner
loop shifts entries right while their `LastUsed` is strictly greater
than the inserted handle's, so the handle lands after every
equal-or-smaller key (a stable insertion). -/
def insertByLastUsed (l : AccountsMap) (x : String) :
    List String → List String
  | [] => [x]
  | y :: ys =>
    if goLt (lookupAcct l x).lastUsed (lookupAcct l y).lastUsed then
      x :: y :: ys
    else y :: insertByLastUsed l x ys

/-- `sortByLastUsed(handles, state)`: insertion sort of the handles by
their `LastUsed` timestamp ascending (Go string order). -/
def sortByLastUsed (l : AccountsMap) (handles : List String) : List String :=
  handles.foldl (fun acc x => insertByLastUsed l x acc) []

/-- `Manager.AvailableAccounts(state)`: handles whose status is
available or unset, in map-iteration order, then sorted by `LastUsed`
ascending. -/
def AvailableAccounts (l : AccountsMap) : List String :=
  sortByLastUsed l
    ((l.filter (fun p =>
        p.2.status = QuotaStatusAvailable || p.2.status = "")).map Prod.fst)

/-- The four-account state used by §8 of the spec as the
`AvailableAccounts` example. -/
def specExampleState : AccountsMap :=
  [("a", { status := "available", lastUsed := "2025-01-01T03:00:00Z" }),
   ("b", { status := "limited" }),
   ("c", { status := "available", lastUsed := "2025-01-01T01:00:00Z" }),
   ("d", { status := "", lastUsed := "2025-01-01T02:00:00Z" })]

/-! ## The quota state store `Load` path

`Manager.Load` reads `quota.json`; the outcome of `os.ReadFile` and
`json.Unmarshal` is abstracted into `QuotaFileRead`, whose `content`
case carries the unmarshalling result (`none` = malformed JSON). -/

/-- The fields `json.Unmarshal` can populate: a version tag and a
possibly-nil accounts map. -/
structure RawQuotaState where
  version : Int
  accounts : Option AccountsMap
  deriving DecidableEq

/-- `config.QuotaState` as held in memory; `accounts = none` is a nil
map (what the invariant of §3 rules out after a successful load). -/
structure QuotaState where
  version : Int
  accounts : Option AccountsMap
  deriving DecidableEq

/-- Outcome of reading the persisted quota file. -/
inductive QuotaFileRead where
  | absent
  | readFailure
  | content (parsed : Option RawQuotaState)
  deriving DecidableEq

/-- `Manager.Load()`: a missing file yields a fresh empty state at the
current schema version; a read failure or malformed content yields an
error; otherwise the parsed state with a nil accounts map replaced by an
empty one. -/
def Load : QuotaFileRead → Except String QuotaState
  | .absent => .ok { version := CurrentQuotaVersion, accounts := some [] }
  | .readFailure => .error "reading quota state"
  | .content none => .error "parsing quota state"
  | .content (some raw) =>
    .ok { version := raw.version, accounts := some (raw.accounts.getD []) }

/-! ## Keychain credential rotator (`keychain_darwin.go`)

The macOS keychain is modelled as a partial map from service name to
stored secret; `security find-generic-password` is a read and
`security add-generic-password -U` an upsert.  `os.UserHomeDir()` is the
`home` parameter.  SHA-256 is implemented in full (FIPS 180-4) over the
UTF-8 bytes of the expanded path, as `crypto/sha256.Sum256` computes it. -/

/-- UTF-8 encoding of one character, as Go's `[]byte(string)` produces. -/
def utf8Bytes (c : Char) : List Nat :=
  let n := c.toNat
  if n < 128 then [n]
  else if n < 2048 then [192 + n / 64, 128 + n % 64]
  else if n < 65536 then [224 + n / 4096, 128 + (n / 64) % 64, 128 + n % 64]
  else [240 + n / 262144, 128 + (n / 4096) % 64, 128 + (n / 64) % 64, 128 + n % 64]

/-- Truncation to a 32-bit word. -/
def w32 (n : Nat) : Nat := n % 4294967296

/-- 32-bit right rotation. -/
def rotr32 (k n : Nat) : Nat := w32 ((n >>> k) ||| (n <<< (32 - k)))

/-- SHA-256 small sigma 0. -/
def ssig0 (x : Nat) : Nat := (rotr32 7 x) ^^^ (rotr32 18 x) ^^^ (x >>> 3)

/-- SHA-256 small sigma 1. -/
def ssig1 (x : Nat) : Nat := (rotr32 17 x) ^^^ (rotr32 19 x) ^^^ (x >>> 10)

/-- SHA-256 big sigma 0. -/
def bsig0 (x : Nat) : Nat := (rotr32 2 x) ^^^ (rotr32 13 x) ^^^ (rotr32 22 x)

/-- SHA-256 big sigma 1. -/
def bsig1 (x : Nat) : Nat := (rotr32 6 x) ^^^ (rotr32 11 x) ^^^ (rotr32 25 x)

/-- The 64 SHA-256 round constants. -/
def sha256K : List Nat :=
  [1116352408, 1899447441, 3049323471, 3921009573,
   961987163, 1508970993, 2453635748, 2870763221,
   3624381080, 310598401, 607225278, 1426881987,
   1925078388, 2162078206, 2614888103, 3248222580,
   3835390401, 4022224774, 264347078, 604807628,
   770255983, 1249150122, 1555081692, 1996064986,
   2554220882, 2821834349, 2952996808, 3210313671,
   3336571891, 3584528711, 113926993, 338241895,
   666307205, 773529912, 1294757372, 1396182291,
   1695183700, 1986661051, 2177026350, 2456956037,
   2730485921, 2820302411, 3259730800, 3345764771,
   3516065817, 3600352804, 4094571909, 275423344,
   430227734, 506948616, 659060556, 883997877,
   958139571, 1322822218, 1537002063, 1747873779,
   1955562222, 2024104815, 2227730452, 2361852424,
   2428436474, 2756734187, 3204031479, 3329325298]

/-- The SHA-256 working state (eight 32-bit words). -/
structure Sha256State where
  a : Nat
  b : Nat
  c : Nat
  d : Nat
  e : Nat
  f : Nat
  g : Nat
  h : Nat
  deriving DecidableEq

/-- The SHA-256 initial hash value. -/
def sha256H0 : Sha256State :=
  ⟨1779033703, 3144134277, 1013904242, 2773480762,
   1359893119, 2600822924, 528734635, 1541459225⟩

/-- One SHA-256 compression round with round constant `k` and schedule
word `w`. -/
def sha256Round (st : Sha256State) (k w : Nat) : Sha256State :=
  let t1 := w32 (st.h + bsig1 st.e + ((st.e &&& st.f) ^^^ ((w32 (4294967295 - st.e)) &&& st.g)) + k + w)
  let t2 := w32 (bsig0 st.a + ((st.a &&& st.b) ^^^ (st.a &&& st.c) ^^^ (st.b &&& st.c)))
  ⟨w32 (t1 + t2), st.a, st.b, st.c, w32 (st.d + t1), st.e, st.f, st.g⟩

/-- Extend the 16 message words of one block to the 64-word schedule. -/
def sha256Extend (ws : List Nat) : Nat → List Nat
  | 0 => ws
  | n + 1 =>
    let acc := sha256Extend ws n
    let len := acc.length
    acc ++ [w32 (ssig1 (acc.getD (len - 2) 0) + acc.getD (len - 7) 0 +
                 ssig0 (acc.getD (len - 15) 0) + acc.getD (len - 16) 0)]

/-- Big-endian 4-byte groups to 32-bit words. -/
def bytesToWords : List Nat → List Nat
  | b0 :: b1 :: b2 :: b3 :: rest =>
    (b0 * 16777216 + b1 * 65536 + b2 * 256 + b3) :: bytesToWords rest
  | _ => []

/-- Process one 64-byte block. -/
def sha256Block (st : Sha256State) (block : List Nat) : Sha256State :=
  let ws := sha256Extend (bytesToWords block) 48
  let e := (sha256K.zip ws).foldl (fun s p => sha256Round s p.1 p.2) st
  ⟨w32 (st.a + e.a), w32 (st.b + e.b), w32 (st.c + e.c), w32 (st.d + e.d),
   w32 (st.e + e.e), w32 (st.f + e.f), w32 (st.g + e.g), w32 (st.h + e.h)⟩

/-- SHA-256 padding: `0x80`, zeros to 56 mod 64, 8-byte big-endian bit
length. -/
def sha256Pad (msg : List Nat) : List Nat :=
  let len := msg.length
  let z := (119 - len % 64) % 64
  let bitLen := len * 8
  msg ++ [128] ++ List.replicate z 0 ++
    (List.range 8).map (fun i => (bitLen >>> (8 * (7 - i))) % 256)

/-- Split into 64-byte blocks. -/
def chunks64 (l : List Nat) : List (List Nat) :=
  if _h : l = [] then []
  else l.take 64 :: chunks64 (l.drop 64)
termination_by l.length
decreasing_by
  simp only [List.length_drop]
  have : 0 < l.length := List.length_pos.mpr _h
  omega

/-- Big-endian bytes of a 32-bit word. -/
def wordBytes (w : Nat) : List Nat :=
  [(w >>> 24) % 256, (w >>> 16) % 256, (w >>> 8) % 256, w % 256]

/-- `crypto/sha256.Sum256` of a Go string: the 32 digest bytes. -/
def sha256Bytes (s : String) : List Nat :=
  let msg := (s.data.map utf8Bytes).flatten
  let fin := (chunks64 (sha256Pad msg)).foldl sha256Block sha256H0
  wordBytes fin.a ++ wordBytes fin.b ++ wordBytes fin.c ++ wordBytes fin.d ++
    wordBytes fin.e ++ wordBytes fin.f ++ wordBytes fin.g ++ wordBytes fin.h

/-- Lowercase hex digit. -/
def hexDigit (n : Nat) : Char :=
  if n < 10 then Char.ofNat (48 + n) else Char.ofNat (87 + n)

/-- `fmt.Sprintf("%x", bytes)`: two lowercase hex digits per byte. -/
def hexOfBytes (l : List Nat) : String :=
  String.mk (l.foldr (fun b acc => hexDigit (b / 16) :: hexDigit (b % 16) :: acc) [])

/-- `keychainServiceBase`. -/
def keychainServiceBase : String := "Claude Code-credentials"

/-- `defaultClaudeConfigDir`. -/
def defaultClaudeConfigDir : String := ".claude"

/-- `expandTilde(path)`: a leading `~/` is replaced by the home
directory (`home + path[1:]`, keeping the slash). -/
def expandTilde (home path : String) : String :=
  match path.data with
  | '~' :: '/' :: rest => home ++ String.mk ('/' :: rest)
  | _ => path

/-- The default config dir path `home + "/" + defaultClaudeConfigDir`. -/
def defaultConfigPath (home : String) : String :=
  home ++ "/" ++ defaultClaudeConfigDir

/-- `KeychainServiceName(configDirPath)`: the bare base name for the
default config dir, otherwise the base name plus `-` and the first four
digest bytes of SHA-256 of the expanded path in lowercase hex. -/
def KeychainServiceName (home configDirPath : String) : String :=
  let expanded := expandTilde home configDirPath
  if expanded = defaultConfigPath home then keychainServiceBase
  else keychainServiceBase ++ "-" ++ hexOfBytes ((sha256Bytes expanded).take 4)

/-- Claim-side service-address tag: `none` for the default profile,
otherwise the hex suffix the address carries.  (Stated from the spec's
words to compare addresses; the source function is
`KeychainServiceName`.) -/
def serviceTag (home configDirPath : String) : Option String :=
  let expanded := expandTilde home configDirPath
  if expanded = defaultConfigPath home then none
  else some (hexOfBytes ((sha256Bytes expanded).take 4))

/-- The keychain: service name to stored secret. -/
def Keychain := String → Option String

/-- `ReadKeychainToken(serviceName)`. -/
def ReadKeychainToken (kc : Keychain) (serviceName : String) :
    Except String String :=
  match kc serviceName with
  | some tok => .ok tok
  | none => .error ("reading keychain token for " ++ serviceName)

/-- `WriteKeychainToken(serviceName, accountLabel, token)` (`-U`
upserts; the account label does not affect addressing). -/
def WriteKeychainToken (kc : Keychain) (serviceName token : String) : Keychain :=
  fun s => if s = serviceName then some token else kc s

/-- `KeychainCredential`: backup of a keychain credential for rollback. -/
structure KeychainCredential where
  serviceName : String
  token : String
  deriving DecidableEq

/-- `SwapKeychainCredential(targetConfigDir, sourceConfigDir)`: back up
the target's token, read the source's token, write the source's token
into the target's entry, and return the backup with the updated
keychain. -/
def SwapKeychainCredential (home : String) (kc : Keychain)
    (targetConfigDir sourceConfigDir : String) :
    Except String (KeychainCredential × Keychain) :=
  let targetSvc := KeychainServiceName home targetConfigDir
  let sourceSvc := KeychainServiceName home sourceConfigDir
  match ReadKeychainToken kc targetSvc with
  | .error e => .error ("backing up target token: " ++ e)
  | .ok backupToken =>
    match ReadKeychainToken kc sourceSvc with
    | .error e => .error ("reading source token: " ++ e)
    | .ok sourceToken =>
      .ok ({ serviceName := targetSvc, token := backupToken },
           WriteKeychainToken kc targetSvc sourceToken)

/-- `RestoreKeychainToken(backup)`: write the backup token back; a nil
backup is a no-op returning no error. -/
def RestoreKeychainToken (kc : Keychain) (backup : Option KeychainCredential) :
    Except String Keychain :=
  match backup with
  | none => .ok kc
  | some b => .ok (WriteKeychainToken kc b.serviceName b.token)

/-! ## Token validator (`ValidateKeychainToken`)

The standard-library parsers are uninterpreted parameters:
`credExpiry` is `json.Unmarshal` into `{expires_at int64}` (returning
the field when unmarshalling succeeds), `decode64` is
`base64.RawURLEncoding.DecodeString`, `claimsExp` is `json.Unmarshal`
into `{exp int64}` on the decoded payload, and `httpRejects` says
whether the network probe answers HTTP 401 for the token.  The
three-segment split on `.` is `strings.Split`, modelled on the
character list. -/

/-- Accumulator loop of `strings.Split(s, ".")`. -/
def splitOnDotGo : List Char → List Char → List String
  | [], acc => [String.mk acc.reverse]
  | c :: cs, acc =>
    if c = '.' then String.mk acc.reverse :: splitOnDotGo cs []
    else splitOnDotGo cs (c :: acc)

/-- `strings.Split(s, ".")` (single-character separator). -/
def splitOnDot (s : String) : List String :=
  splitOnDotGo s.data []

/-- Validation failures: expiry in the past, or a confident HTTP 401. -/
inductive TokenError where
  | expired (at_ : Int)
  | rejected
  deriving DecidableEq

/-- Strategy 3: the HTTP probe; only a 401 is an error. -/
def validateTokenHTTP (httpRejects : String → Bool) (raw : String) :
    Option TokenError :=
  if httpRejects raw then some .rejected else none

/-- Strategy 2: treat the secret as a JWT — exactly three `.`-separated
segments, base64-decode the middle one, read its `exp` claim; on any
failure fall through to the HTTP probe. -/
def validateJWT (decode64 : String → Option String)
    (claimsExp : String → Option Int) (httpRejects : String → Bool)
    (raw : String) (now : Int) : Option TokenError :=
  match splitOnDot raw with
  | [_, p1, _] =>
    match decode64 p1 with
    | some payload =>
      match claimsExp payload with
      | some e =>
        if 0 < e then
          if e ≤ now then some (.expired e) else none
        else validateTokenHTTP httpRejects raw
      | none => validateTokenHTTP httpRejects raw
    | none => validateTokenHTTP httpRejects raw
  | _ => validateTokenHTTP httpRejects raw

/-- `ValidateKeychainToken(configDir)` after the keychain read:
`readRes` is the outcome of reading the token (a failed read or an
empty token reports valid).  Strategy 1 is the JSON credential with an
`expires_at` field; `time.Now().Unix() >= expiry` is the expiry test. -/
def ValidateKeychainToken (readRes : Option String)
    (credExpiry : String → Option Int) (decode64 : String → Option String)
    (claimsExp : String → Option Int) (httpRejects : String → Bool)
    (now : Int) : Option TokenError :=
  match readRes with
  | none => none
  | some raw =>
    if raw = "" then none
    else
      match credExpiry raw with
      | some e =>
        if 0 < e then
          if e ≤ now then some (.expired e) else none
        else validateJWT decode64 claimsExp httpRejects raw now
      | none => validateJWT decode64 claimsExp httpRejects raw now

end Gastown

namespace Gastown

/-! ## Lemmas about the accounts map -/

theorem setAcct_cons_ne (p : String × AccountQuotaState) (t : AccountsMap)
    (handle : String) (a : AccountQuotaState) (hp : p.1 ≠ handle) :
    setAcct (p :: t) handle a = p :: setAcct t handle a := by
  unfold setAcct
  simp only [List.any_cons, List.map_cons, List.cons_append, hp]
  by_cases ht : t.any (fun q => q.1 = handle)
  · simp [ht, hp]
  · simp [ht, hp]

theorem lookupAcct_cons_self (p : String × AccountQuotaState) (t : AccountsMap) :
    lookupAcct (p :: t) p.1 = p.2 := by
  unfold lookupAcct
  simp [List.find?_cons]

theorem lookupAcct_cons_ne (p : String × AccountQuotaState) (t : AccountsMap)
    (handle : String) (hp : p.1 ≠ handle) :
    lookupAcct (p :: t) handle = lookupAcct t handle := by
  unfold lookupAcct
  simp [List.find?_cons, hp]

theorem lookupAcct_setAcct_self (l : AccountsMap) (handle : String)
    (a : AccountQuotaState) : lookupAcct (setAcct l handle a) handle = a := by
  induction l with
  | nil => simp [setAcct, lookupAcct]
  | cons p t ih =>
    obtain ⟨k, v⟩ := p
    by_cases hp : k = handle
    · subst hp
      simp [setAcct, lookupAcct, List.find?_cons]
    · rw [setAcct_cons_ne (k, v) t handle a hp,
        lookupAcct_cons_ne (k, v) _ handle hp, ih]

theorem clearOne_lastUsed (zoneTable : String → Option Int) (refLoc now : Int)
    (a : AccountQuotaState) :
    (clearOne zoneTable refLoc now a).1.lastUsed = a.lastUsed := by
  unfold clearOne
  split
  · rfl
  · split
    · rfl
    · split
      · rfl
      · split
        · rfl
        · rfl

theorem lookupAcct_clearExpired (zoneTable : String → Option Int)
    (refLoc : Int) (l : AccountsMap) (now : Int) (handle : String) :
    lookupAcct (clearExpiredAt zoneTable refLoc l now).1 handle
      = (clearOne zoneTable refLoc now (lookupAcct l handle)).1 := by
  unfold clearExpiredAt
  simp only
  induction l with
  | nil =>
    simp [lookupAcct, clearOne]
  | cons p t ih =>
    by_cases hp : p.1 = handle
    · subst hp
      rw [List.map_cons]
      rw [lookupAcct_cons_self p t]
      exact lookupAcct_cons_self (p.1, (clearOne zoneTable refLoc now p.2).1) _
    · rw [List.map_cons, lookupAcct_cons_ne p t handle hp, ← ih]
      exact lookupAcct_cons_ne _ _ handle hp

theorem clearOne_fst (zoneTable : String → Option Int) (refLoc now : Int)
    (a : AccountQuotaState) :
    (clearOne zoneTable refLoc now a).1
      = if expiredSpec zoneTable refLoc now a
        then { status := QuotaStatusAvailable, lastUsed := a.lastUsed }
        else a := by
  by_cases hspec : expiredSpec zoneTable refLoc now a
  · rw [if_pos hspec]
    obtain ⟨h1, h2, rt, hrt, hlt⟩ := hspec
    unfold clearOne
    simp [h1, h2, hrt, hlt]
  · rw [if_neg hspec]
    unfold clearOne
    by_cases h1 : a.status = QuotaStatusLimited
    · by_cases h2 : a.resetsAt = ""
      · simp [h1, h2]
      · simp only [h1, h2]
        cases hp : ParseResetTime zoneTable a.resetsAt now refLoc with
        | error e => simp
        | ok rt =>
          have h3 : ¬ rt < now := fun hlt =>
            hspec ⟨h1, h2, rt, hp, hlt⟩
          simp [h3]
    · simp [h1]

theorem clearOne_snd (zoneTable : String → Option Int) (refLoc now : Int)
    (a : AccountQuotaState) :
    (clearOne zoneTable refLoc now a).2
      = decide (expiredSpec zoneTable refLoc now a) := by
  by_cases hspec : expiredSpec zoneTable refLoc now a
  · rw [decide_eq_true hspec]
    obtain ⟨h1, h2, rt, hrt, hlt⟩ := hspec
    unfold clearOne
    simp [h1, h2, hrt, hlt]
  · rw [decide_eq_false hspec]
    unfold clearOne
    by_cases h1 : a.status = QuotaStatusLimited
    · by_cases h2 : a.resetsAt = ""
      · simp [h1, h2]
      · simp only [h1, h2]
        cases hp : ParseResetTime zoneTable a.resetsAt now refLoc with
        | error e => simp
        | ok rt =>
          have h3 : ¬ rt < now := fun hlt =>
            hspec ⟨h1, h2, rt, hp, hlt⟩
          simp [h3]
    · simp [h1]

/-- C1: every status transition of this subsystem — the mutation inside
`MarkLimited`, the one inside `MarkAvailable`, and the per-account
transition inside `ClearExpired` — leaves the account's `lastUsed`
exactly as it was before the call (an empty value stays empty and a set
value is carried over, since the field itself is equal). -/
theorem transitions_preserve_lastUsed :
    ∀ (l : AccountsMap) (handle now resetsAt : String)
      (zoneTable : String → Option Int) (refLoc tnow : Int),
      (lookupAcct (markLimited l handle now resetsAt) handle).lastUsed
          = (lookupAcct l handle).lastUsed
      ∧ (lookupAcct (markAvailable l handle) handle).lastUsed
          = (lookupAcct l handle).lastUsed
      ∧ ∀ h2, (lookupAcct (clearExpiredAt zoneTable refLoc l tnow).1 h2).lastUsed
          = (lookupAcct l h2).lastUsed := by
  intro l handle now resetsAt zoneTable refLoc tnow
  refine ⟨?_, ?_, ?_⟩
  · unfold markLimited
    rw [lookupAcct_setAcct_self]
  · unfold markAvailable
    rw [lookupAcct_setAcct_self]
  · intro h2
    rw [lookupAcct_clearExpired, clearOne_lastUsed]

/-- C2: `ClearExpired` clears exactly the accounts satisfying the
spec's condition (limited, non-empty parseable `resetsAt`, parsed
instant strictly before `now`), preserving `lastUsed` and zeroing the
other fields; the returned count is the number of such accounts; all
other accounts are unchanged; and an unparseable `resetsAt` raises no
error (the sweep is total and leaves the account untouched). -/
theorem clearExpired_spec :
    ∀ (zoneTable : String → Option Int) (refLoc : Int) (l : AccountsMap)
      (now : Int),
      (clearExpiredAt zoneTable refLoc l now).2
          = l.countP (fun p => decide (expiredSpec zoneTable refLoc now p.2))
      ∧ ∀ handle,
          lookupAcct (clearExpiredAt zoneTable refLoc l now).1 handle
            = if expiredSpec zoneTable refLoc now (lookupAcct l handle)
              then { status := QuotaStatusAvailable,
                     lastUsed := (lookupAcct l handle).lastUsed }
              else lookupAcct l handle := by
  intro zoneTable refLoc l now
  constructor
  · unfold clearExpiredAt
    simp only
    congr 1
    funext p
    rw [clearOne_snd]
  · intro handle
    rw [lookupAcct_clearExpired, clearOne_fst]

/-- C6: `Load` on a missing file returns a fresh state with a non-null
empty accounts map at the current schema version and no error; `Load`
on unparseable content returns an error (and hence no partially
populated state); and every successfully loaded state has a non-null
accounts map, even when the file omitted the field. -/
theorem load_spec :
    Load .absent = .ok { version := CurrentQuotaVersion, accounts := some [] }
    ∧ Load (.content none) = .error "parsing quota state"
    ∧ ∀ fr st, Load fr = .ok st → st.accounts.isSome = true := by
  refine ⟨rfl, rfl, ?_⟩
  intro fr st h
  cases fr with
  | absent =>
    simp only [Load] at h
    cases h
    rfl
  | readFailure => simp [Load] at h
  | content p =>
    cases p with
    | none => simp [Load] at h
    | some raw =>
      simp only [Load] at h
      cases h
      rfl

/-- Witness for C6 at a concrete input: loading a present file whose
JSON parsed but omitted the accounts field yields a state whose
accounts map is non-null. -/
theorem load_spec_witness :
    (({ version := 7, accounts := some [] } : QuotaState)).accounts.isSome = true :=
  load_spec.2.2 (.content (some { version := 7, accounts := none })) _ rfl

/-- C7: if `SwapCredential` succeeds, restoring the returned backup
rewrites the target's secure-store entry to its exact pre-swap secret,
and `RestoreCredential` of an absent backup is an error-free no-op. -/
theorem swap_restore_roundtrip :
    (∀ (home : String) (kc : Keychain) (target source : String)
        (b : KeychainCredential) (kc2 : Keychain),
      SwapKeychainCredential home kc target source = .ok (b, kc2) →
      ∃ kc3, RestoreKeychainToken kc2 (some b) = .ok kc3
        ∧ kc3 (KeychainServiceName home target)
            = kc (KeychainServiceName home target))
    ∧ ∀ kc0 : Keychain, RestoreKeychainToken kc0 none = .ok kc0 := by
  constructor
  · intro home kc target source b kc2 h
    simp only [SwapKeychainCredential, ReadKeychainToken] at h
    cases htgt : kc (KeychainServiceName home target) with
    | none => rw [htgt] at h; simp at h
    | some t1 =>
      rw [htgt] at h
      cases hsrc : kc (KeychainServiceName home source) with
      | none => rw [hsrc] at h; simp at h
      | some t2 =>
        rw [hsrc] at h
        simp only [Except.ok.injEq, Prod.mk.injEq] at h
        obtain ⟨hb, hkc2⟩ := h
        subst hkc2
        subst hb
        refine ⟨_, rfl, ?_⟩
        simp [WriteKeychainToken, htgt]
  · intro kc0
    rfl

/-- Witness for C7 at a concrete keychain: swapping between two config
dirs on a keychain holding `"T"` everywhere and then restoring the
backup leaves the target's entry at its original value. -/
theorem swap_restore_roundtrip_witness :
    ∃ kc3, RestoreKeychainToken
        (WriteKeychainToken (fun _ => some "T")
          (KeychainServiceName "/home/u" "/a") "T")
        (some { serviceName := KeychainServiceName "/home/u" "/a", token := "T" })
        = .ok kc3
      ∧ kc3 (KeychainServiceName "/home/u" "/a")
          = (fun _ => some "T") (KeychainServiceName "/home/u" "/a") :=
  swap_restore_roundtrip.1 "/home/u" (fun _ => some "T") "/a" "/b"
    { serviceName := KeychainServiceName "/home/u" "/a", token := "T" }
    (WriteKeychainToken (fun _ => some "T") (KeychainServiceName "/home/u" "/a") "T")
    rfl

end Gastown

namespace Gastown

/-- C9: for a stored secret carrying a positive numeric expiry in either
supported encoding — a JSON credential with an `expires_at` field
(strategy 1), or a three-segment token whose decoded middle segment has
an `exp` claim when strategy 1 does not apply (strategy 2) — the
validator reports valid when the expiry is strictly in the future and an
`expired` error when it is not, and the result is independent of the
network probe (no network call decides these cases). -/
theorem validate_local_expiry :
    ∀ (credExpiry : String → Option Int) (decode64 : String → Option String)
      (claimsExp : String → Option Int) (http1 http2 : String → Bool)
      (raw : String) (now e : Int),
      raw ≠ "" →
      (credExpiry raw = some e → 0 < e →
        (now < e →
          ValidateKeychainToken (some raw) credExpiry decode64 claimsExp http1 now
            = none)
        ∧ (e ≤ now →
          ValidateKeychainToken (some raw) credExpiry decode64 claimsExp http1 now
            = some (.expired e))
        ∧ ValidateKeychainToken (some raw) credExpiry decode64 claimsExp http1 now
            = ValidateKeychainToken (some raw) credExpiry decode64 claimsExp http2 now)
      ∧ (credExpiry raw = none →
        ∀ p0 p1 p2 payload, splitOnDot raw = [p0, p1, p2] →
          decode64 p1 = some payload → claimsExp payload = some e → 0 < e →
          (now < e →
            ValidateKeychainToken (some raw) credExpiry decode64 claimsExp http1 now
              = none)
          ∧ (e ≤ now →
            ValidateKeychainToken (some raw) credExpiry decode64 claimsExp http1 now
              = some (.expired e))
          ∧ ValidateKeychainToken (some raw) credExpiry decode64 claimsExp http1 now
              = ValidateKeychainToken (some raw) credExpiry decode64 claimsExp http2 now) := by
  intro credExpiry decode64 claimsExp http1 http2 raw now e hraw
  constructor
  · intro hcred hpos
    refine ⟨?_, ?_, ?_⟩
    · intro hfut
      have hne : ¬ e ≤ now := not_le.mpr hfut
      simp [ValidateKeychainToken, hraw, hcred, hpos, hne]
    · intro hpast
      simp [ValidateKeychainToken, hraw, hcred, hpos, hpast]
    · by_cases hle : e ≤ now
      · simp [ValidateKeychainToken, hraw, hcred, hpos, hle]
      · simp [ValidateKeychainToken, hraw, hcred, hpos, hle]
  · intro hcred p0 p1 p2 payload hsplit hdec hexp hpos
    refine ⟨?_, ?_, ?_⟩
    · intro hfut
      have hne : ¬ e ≤ now := not_le.mpr hfut
      simp [ValidateKeychainToken, validateJWT, hraw, hcred, hsplit, hdec,
        hexp, hpos, hne]
    · intro hpast
      simp [ValidateKeychainToken, validateJWT, hraw, hcred, hsplit, hdec,
        hexp, hpos, hpast]
    · by_cases hle : e ≤ now
      · simp [ValidateKeychainToken, validateJWT, hraw, hcred, hsplit, hdec,
          hexp, hpos, hle]
      · simp [ValidateKeychainToken, validateJWT, hraw, hcred, hsplit, hdec,
          hexp, hpos, hle]

/-- Witness for C9 at concrete inputs: a JSON credential expiring at 5
is reported expired at time 10, and a three-segment token expiring at
20 is reported valid at time 10, in both cases for any outcome of the
network probe. -/
theorem validate_local_expiry_witness :
    (ValidateKeychainToken (some "cred") (fun s => if s = "cred" then some 5 else none)
        (fun _ => none) (fun _ => none) (fun _ => false) 10
      = some (.expired 5))
    ∧ (ValidateKeychainToken (some "h.p.s") (fun _ => none)
        (fun s => if s = "p" then some "payload" else none)
        (fun s => if s = "payload" then some 20 else none) (fun _ => true) 10
      = none) := by
  constructor
  · exact ((validate_local_expiry (fun s => if s = "cred" then some 5 else none)
      (fun _ => none) (fun _ => none) (fun _ => false) (fun _ => false)
      "cred" 10 5 (by decide)).1 rfl (by decide)).2.1 (by decide)
  · exact ((validate_local_expiry (fun _ => none)
      (fun s => if s = "p" then some "payload" else none)
      (fun s => if s = "payload" then some 20 else none) (fun _ => true) (fun _ => true)
      "h.p.s" 10 20 (by decide)).2 rfl "h" "p" "s" "payload" (by decide) rfl rfl
      (by decide)).1 (by decide)

end Gastown

namespace Gastown

/-! ## Order lemmas for the Go string comparison -/

theorem lexLt_irrefl (a : List Char) : lexLt a a = false := by
  induction a with
  | nil => rfl
  | cons c t ih => simp [lexLt, lt_irrefl, ih]

theorem lexLt_asymm : ∀ a b : List Char, lexLt a b = true → lexLt b a = false := by
  intro a
  induction a with
  | nil =>
    intro b h
    cases b with
    | nil => simp [lexLt] at h
    | cons d u => rfl
  | cons c t ih =>
    intro b h
    cases b with
    | nil => simp [lexLt] at h
    | cons d u =>
      by_cases hcd : c < d
      · have hdc : ¬ d < c := lt_asymm hcd
        simp [lexLt, hcd, hdc]
      · by_cases hdc : d < c
        · simp [lexLt, hcd, hdc] at h
        · simp only [lexLt, hcd, hdc, if_false] at h ⊢
          exact ih u h

theorem lexLt_total : ∀ a b : List Char,
    lexLt a b = true ∨ lexLt b a = true ∨ a = b := by
  intro a
  induction a with
  | nil =>
    intro b
    cases b with
    | nil => right; right; rfl
    | cons d u => left; rfl
  | cons c t ih =>
    intro b
    cases b with
    | nil => right; left; rfl
    | cons d u =>
      by_cases hcd : c < d
      · left; simp [lexLt, hcd]
      · by_cases hdc : d < c
        · right; left; simp [lexLt, hdc]
        · have hcde : c = d := le_antisymm (le_of_not_lt hdc) (le_of_not_lt hcd)
          subst hcde
          rcases ih u with h | h | h
          · left; simpa [lexLt, lt_irrefl] using h
          · right; left; simpa [lexLt, lt_irrefl] using h
          · right; right; rw [h]

theorem lexLt_trans : ∀ a b c : List Char,
    lexLt a b = true → lexLt b c = true → lexLt a c = true := by
  intro a
  induction a with
  | nil =>
    intro b c h1 h2
    cases b with
    | nil => simp [lexLt] at h1
    | cons d u =>
      cases c with
      | nil => simp [lexLt] at h2
      | cons e v => rfl
  | cons x t ih =>
    intro b c h1 h2
    cases b with
    | nil => simp [lexLt] at h1
    | cons y u =>
      cases c with
      | nil => simp [lexLt] at h2
      | cons z v =>
        by_cases hxy : x < y
        · by_cases hyz : y < z
          · simp [lexLt, lt_trans hxy hyz]
          · by_cases hzy : z < y
            · simp [lexLt, hyz, hzy] at h2
            · have : y = z := le_antisymm (le_of_not_lt hzy) (le_of_not_lt hyz)
              subst this
              simp [lexLt, hxy]
        · by_cases hyx : y < x
          · simp [lexLt, hxy, hyx] at h1
          · have hxye : x = y := le_antisymm (le_of_not_lt hyx) (le_of_not_lt hxy)
            subst hxye
            simp only [lexLt, lt_irrefl, if_false] at h1
            by_cases hyz : x < z
            · simp [lexLt, hyz]
            · by_cases hzy : z < x
              · simp [lexLt, hyz, hzy] at h2
              · simp only [lexLt, hyz, hzy, if_false] at h2 ⊢
                exact ih u v h1 h2

theorem lexLt_false_trans (a b c : List Char)
    (h1 : lexLt b a = false) (h2 : lexLt c b = false) : lexLt c a = false := by
  cases hca : lexLt c a with
  | false => rfl
  | true =>
    rcases lexLt_total a b with hab | hba | hab
    · rcases lexLt_total b c with hbc | hcb | hbc
      · have := lexLt_asymm a c (lexLt_trans a b c hab hbc)
        simp [this] at hca
      · simp [h2] at hcb
      · subst hbc
        simp [h1] at hca
    · simp [h1] at hba
    · subst hab
      simp [h2] at hca

theorem lexLt_nil_false (x : List Char) (h : lexLt [] x = false) : x = [] := by
  cases x with
  | nil => rfl
  | cons c t => simp [lexLt] at h

theorem goLt_asymm (s t : String) (h : goLt s t = true) : goLt t s = false :=
  lexLt_asymm s.data t.data h

theorem goLt_trans (s t u : String) (h1 : goLt s t = true)
    (h2 : goLt t u = true) : goLt s u = true :=
  lexLt_trans s.data t.data u.data h1 h2

end Gastown

namespace Gastown

/-! ## Insertion-sort lemmas for `sortByLastUsed` -/

theorem insertByLastUsed_perm (l : AccountsMap) (x : String) :
    ∀ ys : List String, (insertByLastUsed l x ys).Perm (x :: ys) := by
  intro ys
  induction ys with
  | nil => exact List.Perm.refl _
  | cons y t ih =>
    unfold insertByLastUsed
    by_cases hc :
        goLt (lookupAcct l x).lastUsed (lookupAcct l y).lastUsed = true
    · rw [if_pos hc]
    · rw [if_neg hc]
      exact (ih.cons y).trans (List.Perm.swap x y t)

theorem insertByLastUsed_pairwise (l : AccountsMap) (x : String)
    (ys : List String)
    (h : ys.Pairwise (fun a b =>
      goLt (lookupAcct l b).lastUsed (lookupAcct l a).lastUsed = false)) :
    (insertByLastUsed l x ys).Pairwise (fun a b =>
      goLt (lookupAcct l b).lastUsed (lookupAcct l a).lastUsed = false) := by
  induction ys with
  | nil => simp [insertByLastUsed]
  | cons y t ih =>
    rw [List.pairwise_cons] at h
    obtain ⟨hy, ht⟩ := h
    unfold insertByLastUsed
    by_cases hc :
        goLt (lookupAcct l x).lastUsed (lookupAcct l y).lastUsed = true
    · rw [if_pos hc, List.pairwise_cons]
      constructor
      · intro z hz
        rcases List.mem_cons.mp hz with rfl | hz2
        · exact goLt_asymm _ _ hc
        · have h1 := hy z hz2
          cases hzx :
              goLt (lookupAcct l z).lastUsed (lookupAcct l x).lastUsed with
          | false => rfl
          | true =>
            have h2 := goLt_trans _ _ _ hzx hc
            simp [h1] at h2
      · exact List.Pairwise.cons hy ht
    · rw [if_neg hc, List.pairwise_cons]
      constructor
      · intro z hz
        have hz2 := (insertByLastUsed_perm l x t).mem_iff.mp hz
        rcases List.mem_cons.mp hz2 with rfl | hz3
        · exact Bool.not_eq_true _ ▸ Bool.of_not_eq_true hc
        · exact hy z hz3
      · exact ih ht

theorem sortByLastUsed_perm_aux (l : AccountsMap) :
    ∀ (hs : List String) (acc : List String),
      (hs.foldl (fun acc x => insertByLastUsed l x acc) acc).Perm (hs ++ acc) := by
  intro hs
  induction hs with
  | nil => intro acc; simp
  | cons h t ih =>
    intro acc
    rw [List.foldl_cons]
    refine (ih _).trans ?_
    have h1 : (insertByLastUsed l h acc).Perm (h :: acc) :=
      insertByLastUsed_perm l h acc
    exact ((List.Perm.append_left t h1).trans List.perm_middle)

theorem sortByLastUsed_perm (l : AccountsMap) (hs : List String) :
    (sortByLastUsed l hs).Perm hs := by
  have := sortByLastUsed_perm_aux l hs []
  simpa [sortByLastUsed] using this

theorem sortByLastUsed_pairwise_aux (l : AccountsMap) :
    ∀ (hs : List String) (acc : List String),
      acc.Pairwise (fun a b =>
        goLt (lookupAcct l b).lastUsed (lookupAcct l a).lastUsed = false) →
      (hs.foldl (fun acc x => insertByLastUsed l x acc) acc).Pairwise
        (fun a b =>
          goLt (lookupAcct l b).lastUsed (lookupAcct l a).lastUsed = false) := by
  intro hs
  induction hs with
  | nil => intro acc hacc; simpa using hacc
  | cons h t ih =>
    intro acc hacc
    rw [List.foldl_cons]
    exact ih _ (insertByLastUsed_pairwise l h acc hacc)

theorem sortByLastUsed_pairwise (l : AccountsMap) (hs : List String) :
    (sortByLastUsed l hs).Pairwise (fun a b =>
      goLt (lookupAcct l b).lastUsed (lookupAcct l a).lastUsed = false) :=
  sortByLastUsed_pairwise_aux l hs [] (List.Pairwise.nil)

theorem lookupAcct_of_mem_nodup (l : AccountsMap) (k : String)
    (v : AccountQuotaState) (hnd : (l.map Prod.fst).Nodup)
    (hmem : (k, v) ∈ l) : lookupAcct l k = v := by
  induction l with
  | nil => cases hmem
  | cons p t ih =>
    rw [List.map_cons, List.nodup_cons] at hnd
    obtain ⟨hhd, htl⟩ := hnd
    rcases List.mem_cons.mp hmem with rfl | hmem2
    · exact lookupAcct_cons_self (k, v) t
    · by_cases hp : p.1 = k
      · exfalso
        apply hhd
        rw [hp]
        exact List.mem_map.mpr ⟨(k, v), hmem2, rfl⟩
      · rw [lookupAcct_cons_ne p t k hp]
        exact ih htl hmem2

end Gastown

namespace Gastown

/-- C5: `AvailableAccounts` returns exactly the handles whose status is
available or unset (excluding limited and cooldown), sorted ascending by
`lastUsed` in Go string order; since the empty string is the least
string, never-used accounts come first (final conjunct). -/
theorem availableAccounts_spec :
    ∀ l : AccountsMap, (l.map Prod.fst).Nodup →
      (AvailableAccounts l).Perm
          ((l.filter (fun p =>
            p.2.status = QuotaStatusAvailable || p.2.status = "")).map Prod.fst)
      ∧ (AvailableAccounts l).Pairwise (fun a b =>
          goLt (lookupAcct l b).lastUsed (lookupAcct l a).lastUsed = false)
      ∧ (∀ h, h ∈ AvailableAccounts l ↔
          ((lookupAcct l h).status = QuotaStatusAvailable
            ∨ (lookupAcct l h).status = "") ∧ h ∈ l.map Prod.fst)
      ∧ (AvailableAccounts l).Pairwise (fun a b =>
          (lookupAcct l b).lastUsed = "" → (lookupAcct l a).lastUsed = "") := by
  intro l hnd
  have hperm : (AvailableAccounts l).Perm
      ((l.filter (fun p =>
        p.2.status = QuotaStatusAvailable || p.2.status = "")).map Prod.fst) :=
    sortByLastUsed_perm l _
  have hpair : (AvailableAccounts l).Pairwise (fun a b =>
      goLt (lookupAcct l b).lastUsed (lookupAcct l a).lastUsed = false) :=
    sortByLastUsed_pairwise l _
  refine ⟨hperm, hpair, ?_, ?_⟩
  · intro h
    rw [hperm.mem_iff]
    constructor
    · intro hmem
      obtain ⟨p, hpfil, hph⟩ := List.mem_map.mp hmem
      obtain ⟨hpl, hpred⟩ := List.mem_filter.mp hpfil
      obtain ⟨k, v⟩ := p
      cases hph
      have hl := lookupAcct_of_mem_nodup l k v hnd hpl
      rw [hl]
      refine ⟨?_, List.mem_map.mpr ⟨(k, v), hpl, rfl⟩⟩
      simpa using hpred
    · rintro ⟨hstat, hmem⟩
      obtain ⟨p, hpl, hph⟩ := List.mem_map.mp hmem
      obtain ⟨k, v⟩ := p
      cases hph
      have hl := lookupAcct_of_mem_nodup l k v hnd hpl
      rw [hl] at hstat
      refine List.mem_map.mpr ⟨(k, v), List.mem_filter.mpr ⟨hpl, ?_⟩, rfl⟩
      simpa using hstat
  · exact hpair.imp (fun {a b} hab hb => by
      have hb2 : ((lookupAcct l b).lastUsed).data = [] := by rw [hb]
      unfold goLt at hab
      rw [hb2] at hab
      have hdata := lexLt_nil_false _ hab
      exact String.ext (by rw [hdata]))

/-- Witness for C5 at the concrete four-account state of §8 of the
spec: `a` available and most recently used, `b` limited, `c` available
and least recently used, `d` with unset status in between. -/
theorem availableAccounts_spec_witness :
    (AvailableAccounts specExampleState).Perm
        ((specExampleState.filter (fun p =>
          p.2.status = QuotaStatusAvailable || p.2.status = "")).map Prod.fst)
    ∧ (AvailableAccounts specExampleState).Pairwise (fun a b =>
        goLt (lookupAcct specExampleState b).lastUsed
          (lookupAcct specExampleState a).lastUsed = false)
    ∧ (∀ h, h ∈ AvailableAccounts specExampleState ↔
        ((lookupAcct specExampleState h).status = QuotaStatusAvailable
          ∨ (lookupAcct specExampleState h).status = "")
          ∧ h ∈ specExampleState.map Prod.fst)
    ∧ (AvailableAccounts specExampleState).Pairwise (fun a b =>
        (lookupAcct specExampleState b).lastUsed = "" →
        (lookupAcct specExampleState a).lastUsed = "") :=
  availableAccounts_spec specExampleState (by decide)

end Gastown

namespace Gastown

/-! ## Structure of successful pattern matches -/

theorem matchTail_groups (l : List Char) (ms mer : String)
    (h : matchTail l = some (ms, mer)) :
    ms = "" ∨ (ms.data.length = 2 ∧ ms.data.all Char.isDigit = true) := by
  unfold matchTail at h
  rcases ho : (match l with
    | ':' :: d1 :: d2 :: rest =>
      if d1.isDigit && d2.isDigit then
        (matchSpacedMeridiem rest).map (fun mer => (String.mk [d1, d2], mer))
      else none
    | _ => none) with _ | p
  · rw [ho, Option.none_orElse] at h
    rcases Option.map_eq_some'.mp h with ⟨mer2, hm2, hpair⟩
    cases hpair
    left
    rfl
  · rw [ho, Option.some_orElse] at h
    cases h
    split at ho
    · rename_i d1 d2 rest
      by_cases hd : d1.isDigit && d2.isDigit
      · rw [if_pos hd] at ho
        rcases Option.map_eq_some'.mp ho with ⟨mer2, hm2, hpair⟩
        cases hpair
        right
        have h1 := (Bool.and_eq_true _ _).mp hd
        simp only [List.all_cons, List.all_nil, h1.1, h1.2]
        exact ⟨rfl, rfl⟩
      · rw [if_neg hd] at ho
        cases ho
    · cases ho

theorem matchResetList_groups (l : List Char) (hs ms mer : String)
    (h : matchResetList l = some (hs, ms, mer)) :
    (hs.data ≠ [] ∧ hs.data.all Char.isDigit = true)
    ∧ (ms = "" ∨ (ms.data.length = 2 ∧ ms.data.all Char.isDigit = true)) := by
  rcases l with _ | ⟨c1, _ | ⟨c2, rest⟩⟩
  · cases h
  · rw [matchResetList] at h
    by_cases h1 : c1.isDigit
    · rw [if_pos h1] at h
      rcases Option.map_eq_some'.mp h with ⟨p, hp, hpair⟩
      obtain ⟨p1, p2⟩ := p
      cases hpair
      refine ⟨⟨by simp, by simp [h1]⟩, matchTail_groups _ _ _ hp⟩
    · rw [if_neg h1] at h
      cases h
  · rw [matchResetList] at h
    by_cases h1 : c1.isDigit
    · rw [if_pos h1] at h
      by_cases h2 : c2.isDigit
      · rw [if_pos h2] at h
        rcases ho : (matchTail rest).map
            (fun p => (String.mk [c1, c2], p.1, p.2)) with _ | q
        · rw [ho, Option.none_orElse] at h
          rcases Option.map_eq_some'.mp h with ⟨p, hp, hpair⟩
          obtain ⟨p1, p2⟩ := p
          cases hpair
          refine ⟨⟨by simp, by simp [h1]⟩, matchTail_groups _ _ _ hp⟩
        · rw [ho, Option.some_orElse] at h
          cases h
          rcases Option.map_eq_some'.mp ho with ⟨p, hp, hpair⟩
          obtain ⟨p1, p2⟩ := p
          cases hpair
          refine ⟨⟨by simp, by simp [h1, h2]⟩, matchTail_groups _ _ _ hp⟩
      · rw [if_neg h2] at h
        rcases Option.map_eq_some'.mp h with ⟨p, hp, hpair⟩
        obtain ⟨p1, p2⟩ := p
        cases hpair
        refine ⟨⟨by simp, by simp [h1]⟩, matchTail_groups _ _ _ hp⟩
    · rw [if_neg h1] at h
      cases h

theorem matchReset_groups (s : String) (hs ms mer : String)
    (h : matchReset s = some (hs, ms, mer)) :
    (hs.data ≠ [] ∧ hs.data.all Char.isDigit = true)
    ∧ (ms = "" ∨ (ms.data.length = 2 ∧ ms.data.all Char.isDigit = true)) :=
  matchResetList_groups s.data hs ms mer h

/-! ## Identity lemmas for trimming and zone splitting -/

theorem dropWhile_all_false {p : Char → Bool} :
    ∀ l : List Char, (∀ c ∈ l, p c = false) → l.dropWhile p = l := by
  intro l h
  induction l with
  | nil => rfl
  | cons c t ih =>
    rw [List.dropWhile_cons]
    rw [h c (List.mem_cons_self c t)]
    simp

theorem trimString_id (s : String)
    (h : ∀ c ∈ s.data, isGoTrimSpace c = false) : trimString s = s := by
  unfold trimString trimChars
  rw [dropWhile_all_false s.data h]
  rw [dropWhile_all_false s.data.reverse (fun c hc => h c (List.mem_reverse.mp hc))]
  rw [List.reverse_reverse]

theorem splitZone_id (zoneTable : String → Option Int) (refLoc : Int)
    (s : String) (h : ∀ c ∈ s.data, (c = '(') = False) :
    splitZone zoneTable refLoc s = (s, refLoc) := by
  have hf : s.data.findIdx? (· = '(') = none := by
    rw [List.findIdx?_eq_none_iff]
    intro c hc
    simp [h c hc]
  simp only [splitZone]
  rw [hf]

/-! ## Civil-day arithmetic for the reset instant -/

theorem civilDay_resetInstant (loc ref : Int) (hour minute : Nat) :
    civilDay loc (resetInstant loc ref hour minute)
      = civilDay loc ref + ((hour : Int) * 60 + (minute : Int)) / 1440 := by
  have key : ∀ d : Int,
      Int.fdiv (d * 1440 + (hour : Int) * 60 + (minute : Int) - loc + loc) 1440
        = d + ((hour : Int) * 60 + (minute : Int)) / 1440 := by
    intro d
    rw [show d * 1440 + (hour : Int) * 60 + (minute : Int) - loc + loc
        = ((hour : Int) * 60 + (minute : Int)) + 1440 * d from by ring]
    rw [Int.fdiv_eq_ediv _ (by norm_num)]
    rw [Int.add_mul_ediv_left _ d (by norm_num : (1440 : Int) ≠ 0)]
    ring
  exact key (civilDay loc ref)

theorem civilDay_resetInstant_eq (loc ref : Int) (hour minute : Nat)
    (h : hour * 60 + minute < 1440) :
    civilDay loc (resetInstant loc ref hour minute) = civilDay loc ref := by
  rw [civilDay_resetInstant]
  have h0 : ((hour : Int) * 60 + (minute : Int)) / 1440 = 0 := by
    apply Int.ediv_eq_zero_of_lt
    · positivity
    · exact_mod_cast h
  rw [h0, add_zero]

theorem civilDay_resetInstant_gt (loc ref : Int) (hour : Nat)
    (h : 1440 ≤ hour * 60) :
    civilDay loc ref < civilDay loc (resetInstant loc ref hour 0) := by
  rw [civilDay_resetInstant]
  have h0 : (1 : Int) ≤ ((hour : Int) * 60 + ((0 : Nat) : Int)) / 1440 := by
    rw [Int.le_ediv_iff_mul_le (by norm_num)]
    push_cast
    omega
  omega

/-- `ParseResetTime` on any input whose (trimmed, zone-stripped) core
matches the pattern returns the reset instant built from the matched
groups. -/
theorem ParseResetTime_of_match (zoneTable : String → Option Int)
    (s : String) (ref refLoc : Int) (hs ms mer : String)
    (h : matchReset (splitZone zoneTable refLoc (trimString s)).1
        = some (hs, ms, mer)) :
    ParseResetTime zoneTable s ref refLoc
      = .ok (resetInstant (splitZone zoneTable refLoc (trimString s)).2 ref
          (adjHour (digitsToNat hs) (toLowerStr mer))
          (if ms = "" then 0 else digitsToNat ms)) := by
  rcases hsz : splitZone zoneTable refLoc (trimString s) with ⟨core, loc⟩
  rw [hsz] at h
  simp only at h
  simp only [ParseResetTime]
  rw [hsz]
  simp only [h]

/-- `ParseResetTime` errors exactly when the pattern fails to match. -/
theorem ParseResetTime_of_no_match (zoneTable : String → Option Int)
    (s : String) (ref refLoc : Int)
    (h : matchReset (splitZone zoneTable refLoc (trimString s)).1 = none) :
    ParseResetTime zoneTable s ref refLoc
      = .error ("cannot parse reset time: "
          ++ (splitZone zoneTable refLoc (trimString s)).1) := by
  rcases hsz : splitZone zoneTable refLoc (trimString s) with ⟨core, loc⟩
  rw [hsz] at h
  simp only at h
  simp only [ParseResetTime]
  rw [hsz]
  simp only [h]

end Gastown

namespace Gastown

/-- A decimal digit is not whitespace and not a parenthesis. -/
theorem digit_not_special (c : Char) (h : c.isDigit = true) :
    isGoTrimSpace c = false ∧ (c = '(') = False := by
  have hne : ∀ x : Char, x.isDigit = false → c ≠ x := by
    intro x hx hc
    rw [hc, hx] at h
    cases h
  constructor
  · simp [isGoTrimSpace, hne ' ' (by decide), hne '\t' (by decide),
      hne '\n' (by decide), hne '\r' (by decide), hne '\x0b' (by decide),
      hne '\x0c' (by decide)]
  · simp [hne '(' (by decide)]

theorem matchResetList_one_am (c1 : Char) (h1 : c1.isDigit = true) :
    matchResetList [c1, 'a', 'm'] = some (String.mk [c1], "", "am") := by
  simp [matchResetList, h1, (by decide : ('a').isDigit = false),
    (show matchTail ['a', 'm'] = some ("", "am") from rfl)]

theorem matchResetList_one_pm (c1 : Char) (h1 : c1.isDigit = true) :
    matchResetList [c1, 'p', 'm'] = some (String.mk [c1], "", "pm") := by
  simp [matchResetList, h1, (by decide : ('p').isDigit = false),
    (show matchTail ['p', 'm'] = some ("", "pm") from rfl)]

theorem matchResetList_two_am (c1 c2 : Char) (h1 : c1.isDigit = true)
    (h2 : c2.isDigit = true) :
    matchResetList [c1, c2, 'a', 'm'] = some (String.mk [c1, c2], "", "am") := by
  simp [matchResetList, h1, h2,
    (show matchTail ['a', 'm'] = some ("", "am") from rfl)]

theorem matchResetList_two_pm (c1 c2 : Char) (h1 : c1.isDigit = true)
    (h2 : c2.isDigit = true) :
    matchResetList [c1, c2, 'p', 'm'] = some (String.mk [c1, c2], "", "pm") := by
  simp [matchResetList, h1, h2,
    (show matchTail ['p', 'm'] = some ("", "pm") from rfl)]

/-- C4: `ParseResetTime` fails with a parse error whenever the
mandatory hour/meridiem pattern does not match the (trimmed,
zone-stripped) input; and whenever the pattern does match, both matched
numeric groups are guaranteed parseable as numbers (the hour group is a
non-empty digit string and the minute group, when present, a two-digit
string), so no numeric-parse failure — and hence no silent coercion to
zero — can occur on a matched group. -/
theorem parseResetTime_error_spec :
    ∀ (zoneTable : String → Option Int) (s : String) (ref refLoc : Int),
      (matchReset (splitZone zoneTable refLoc (trimString s)).1 = none →
        ∃ msg, ParseResetTime zoneTable s ref refLoc = .error msg)
      ∧ (∀ hs ms mer,
          matchReset (splitZone zoneTable refLoc (trimString s)).1
              = some (hs, ms, mer) →
          (∃ n, parseNumGroup hs = some n)
          ∧ (ms ≠ "" → ∃ n, parseNumGroup ms = some n)) := by
  intro zoneTable s ref refLoc
  constructor
  · intro h
    exact ⟨_, ParseResetTime_of_no_match zoneTable s ref refLoc h⟩
  · intro hs ms mer h
    obtain ⟨⟨hne, hdig⟩, hms⟩ := matchReset_groups _ _ _ _ h
    constructor
    · refine ⟨digitsToNat hs, ?_⟩
      unfold parseNumGroup
      rw [if_pos (by simp [hne, hdig])]
    · intro hms0
      rcases hms with rfl | ⟨hlen, hdig2⟩
      · exact absurd rfl hms0
      · refine ⟨digitsToNat ms, ?_⟩
        have hne2 : ms.data ≠ [] := by
          intro hh
          rw [hh] at hlen
          cases hlen
        unfold parseNumGroup
        rw [if_pos (by simp [hne2, hdig2])]

/-- Witness for C4 at concrete inputs: `"soon"` fails with a parse
error, and on `"3:30pm"` both matched groups parse as numbers. -/
theorem parseResetTime_error_spec_witness :
    (∃ msg, ParseResetTime (fun _ => none) "soon" 0 0 = .error msg)
    ∧ ((∃ n, parseNumGroup "3" = some n)
        ∧ (("30" : String) ≠ "" → ∃ n, parseNumGroup "30" = some n)) :=
  ⟨(parseResetTime_error_spec (fun _ => none) "soon" 0 0).1 (by decide),
   (parseResetTime_error_spec (fun _ => none) "3:30pm" 0 0).2 "3" "30" "pm"
     (by decide)⟩

end Gastown

namespace Gastown

/-- C3 (amended): on every input whose pattern matches, the meridiem
mapping is 12am → 0, 12pm → 12, other pm hours +12, other am hours
unchanged; the result is the reset instant at the reference's civil
date in the resolution zone; the parse never consults the reference's
time-of-day (any reference on the same civil day yields the same
instant, so the result is never rolled forward merely because the
parsed time-of-day already passed); and the resulting instant falls on
the reference's civil date whenever the adjusted hour and minute denote
a time within the day (`hour*60 + minute < 1440`) — out-of-range hours
such as `13pm` normalise onto a later day instead. -/
theorem parseResetTime_today_spec :
    ∀ (zoneTable : String → Option Int) (s : String) (ref refLoc : Int)
      (hs ms mer : String),
      matchReset (splitZone zoneTable refLoc (trimString s)).1
          = some (hs, ms, mer) →
      (∀ n : Nat, adjHour n "am" = if n = 12 then 0 else n)
      ∧ (∀ n : Nat, adjHour n "pm" = if n = 12 then 12 else n + 12)
      ∧ ParseResetTime zoneTable s ref refLoc
          = .ok (resetInstant (splitZone zoneTable refLoc (trimString s)).2 ref
              (adjHour (digitsToNat hs) (toLowerStr mer))
              (if ms = "" then 0 else digitsToNat ms))
      ∧ (∀ ref2 : Int,
          civilDay (splitZone zoneTable refLoc (trimString s)).2 ref2
              = civilDay (splitZone zoneTable refLoc (trimString s)).2 ref →
          ParseResetTime zoneTable s ref2 refLoc
            = ParseResetTime zoneTable s ref refLoc)
      ∧ (adjHour (digitsToNat hs) (toLowerStr mer) * 60
            + (if ms = "" then 0 else digitsToNat ms) < 1440 →
          civilDay (splitZone zoneTable refLoc (trimString s)).2
              (resetInstant (splitZone zoneTable refLoc (trimString s)).2 ref
                (adjHour (digitsToNat hs) (toLowerStr mer))
                (if ms = "" then 0 else digitsToNat ms))
            = civilDay (splitZone zoneTable refLoc (trimString s)).2 ref) := by
  intro zoneTable s ref refLoc hs ms mer h
  refine ⟨?_, ?_, ?_, ?_, ?_⟩
  · intro n
    unfold adjHour
    by_cases hn : n = 12
    · simp [hn]
    · simp [hn]
  · intro n
    unfold adjHour
    by_cases hn : n = 12
    · simp [hn]
    · simp [hn]
  · exact ParseResetTime_of_match zoneTable s ref refLoc hs ms mer h
  · intro ref2 hday
    rw [ParseResetTime_of_match zoneTable s ref2 refLoc hs ms mer h,
      ParseResetTime_of_match zoneTable s ref refLoc hs ms mer h]
    unfold resetInstant
    rw [hday]
  · intro hrange
    exact civilDay_resetInstant_eq _ _ _ _ hrange

/-- Witness for C3: parsing `"3:30pm"` at reference instant 1000
(time-of-day 16:40, already past 15:30) still yields 15:30 of the
reference's own civil day, never the next day. -/
theorem parseResetTime_today_spec_witness :
    ParseResetTime (fun _ => none) "3:30pm" 1000 0
        = .ok (resetInstant 0 1000 15 30)
    ∧ civilDay 0 (resetInstant 0 1000 15 30) = civilDay 0 1000 :=
  ⟨(parseResetTime_today_spec (fun _ => none) "3:30pm" 1000 0 "3" "30" "pm"
      (by decide)).2.2.1,
   (parseResetTime_today_spec (fun _ => none) "3:30pm" 1000 0 "3" "30" "pm"
      (by decide)).2.2.2.2 (by decide)⟩

/-- Counterexample for C3 as frozen: `"13pm"` matches the grammar
pattern (hour group `13`, meridiem `pm`), yet the returned instant
(minute 1500) falls on civil day 1, not the reference instant 0's civil
day 0 — the claim that the result's date is always the reference's date
fails for matched inputs with out-of-range hours. -/
theorem parseResetTime_today_cex :
    matchReset (splitZone (fun _ => none) 0 (trimString "13pm")).1
        = some ("13", "", "pm")
    ∧ ParseResetTime (fun _ => none) "13pm" 0 0 = .ok 1500
    ∧ civilDay 0 1500 = 1
    ∧ civilDay 0 0 = 0
    ∧ (1 : Int) ≠ 0 :=
  ⟨by decide, rfl, by decide, by decide, by decide⟩

end Gastown

namespace Gastown

/-- C10: the pattern performs no range validation on the hour: every
1–2-digit hour with a bare meridiem parses without error, and for a pm
hour greater than 12 the adjusted hour-of-day exceeds 23, so after
`time.Date` normalisation the returned instant falls on a calendar day
strictly after the reference instant's day in the resolution zone. -/
theorem parseResetTime_no_range_check :
    ∀ (zoneTable : String → Option Int) (ref refLoc : Int) (hs mer : String),
      hs.data ≠ [] → hs.data.length ≤ 2 → hs.data.all Char.isDigit = true →
      (mer = "am" ∨ mer = "pm") →
      (∃ t, ParseResetTime zoneTable (hs ++ mer) ref refLoc = .ok t)
      ∧ (mer = "pm" → 12 < digitsToNat hs →
          ParseResetTime zoneTable (hs ++ mer) ref refLoc
            = .ok (resetInstant refLoc ref (digitsToNat hs + 12) 0)
          ∧ 23 < digitsToNat hs + 12
          ∧ civilDay refLoc ref
              < civilDay refLoc (resetInstant refLoc ref (digitsToNat hs + 12) 0)) := by
  intro zoneTable ref refLoc hs mer hne hlen hdig hm
  have hdig2 : ∀ c ∈ hs.data, c.isDigit = true := List.all_eq_true.mp hdig
  have hchar : ∀ c ∈ (hs ++ mer).data,
      isGoTrimSpace c = false ∧ (c = '(') = False := by
    intro c hc
    rw [String.data_append] at hc
    rcases List.mem_append.mp hc with hc | hc
    · exact digit_not_special c (hdig2 c hc)
    · rcases hm with rfl | rfl
      · rw [show ("am" : String).data = ['a', 'm'] from rfl] at hc
        rcases List.mem_cons.mp hc with rfl | hc2
        · exact ⟨by decide, by simp⟩
        · rcases List.mem_cons.mp hc2 with rfl | hc3
          · exact ⟨by decide, by simp⟩
          · cases hc3
      · rw [show ("pm" : String).data = ['p', 'm'] from rfl] at hc
        rcases List.mem_cons.mp hc with rfl | hc2
        · exact ⟨by decide, by simp⟩
        · rcases List.mem_cons.mp hc2 with rfl | hc3
          · exact ⟨by decide, by simp⟩
          · cases hc3
  have htrim : trimString (hs ++ mer) = hs ++ mer :=
    trimString_id _ (fun c hc => (hchar c hc).1)
  have hsz : splitZone zoneTable refLoc (trimString (hs ++ mer))
      = (hs ++ mer, refLoc) := by
    rw [htrim]
    exact splitZone_id _ _ _ (fun c hc => (hchar c hc).2)
  have hmatch : matchReset (hs ++ mer) = some (hs, "", mer) := by
    unfold matchReset
    rw [String.data_append]
    rcases hd : hs.data with _ | ⟨c1, _ | ⟨c2, _ | ⟨c3, t⟩⟩⟩
    · exact absurd hd hne
    · have h1 : c1.isDigit = true := hdig2 c1 (by rw [hd]; exact List.mem_cons_self _ _)
      have hmk : String.mk [c1] = hs := by rw [← hd]
      rcases hm with rfl | rfl
      · rw [show ("am" : String).data = ['a', 'm'] from rfl]
        rw [show [c1] ++ ['a', 'm'] = [c1, 'a', 'm'] from rfl]
        rw [matchResetList_one_am c1 h1, hmk]
      · rw [show ("pm" : String).data = ['p', 'm'] from rfl]
        rw [show [c1] ++ ['p', 'm'] = [c1, 'p', 'm'] from rfl]
        rw [matchResetList_one_pm c1 h1, hmk]
    · have h1 : c1.isDigit = true := hdig2 c1 (by rw [hd]; exact List.mem_cons_self _ _)
      have h2 : c2.isDigit = true := hdig2 c2 (by rw [hd]; simp)
      have hmk : String.mk [c1, c2] = hs := by rw [← hd]
      rcases hm with rfl | rfl
      · rw [show ("am" : String).data = ['a', 'm'] from rfl]
        rw [show [c1, c2] ++ ['a', 'm'] = [c1, c2, 'a', 'm'] from rfl]
        rw [matchResetList_two_am c1 c2 h1 h2, hmk]
      · rw [show ("pm" : String).data = ['p', 'm'] from rfl]
        rw [show [c1, c2] ++ ['p', 'm'] = [c1, c2, 'p', 'm'] from rfl]
        rw [matchResetList_two_pm c1 c2 h1 h2, hmk]
    · rw [hd] at hlen
      simp at hlen
  have hok := ParseResetTime_of_match zoneTable (hs ++ mer) ref refLoc hs "" mer
    (by rw [hsz]; exact hmatch)
  rw [hsz] at hok
  simp only [if_pos rfl] at hok
  refine ⟨⟨_, hok⟩, ?_⟩
  intro hpm hgt
  subst hpm
  have hadj : adjHour (digitsToNat hs) (toLowerStr "pm") = digitsToNat hs + 12 := by
    rw [show toLowerStr "pm" = "pm" from rfl]
    unfold adjHour
    rw [if_pos (by simp [show digitsToNat hs ≠ 12 from by omega])]
  rw [hadj] at hok
  exact ⟨hok, by omega, civilDay_resetInstant_gt refLoc ref _ (by omega)⟩

/-- Witness for C10 at the concrete input `"13pm"`: it parses without
error, the adjusted hour 25 exceeds 23, and the returned instant falls
on a strictly later civil day than the reference. -/
theorem parseResetTime_no_range_check_witness :
    (∃ t, ParseResetTime (fun _ => none) ("13" ++ "pm") 0 0 = .ok t)
    ∧ (ParseResetTime (fun _ => none) ("13" ++ "pm") 0 0
          = .ok (resetInstant 0 0 (digitsToNat "13" + 12) 0)
        ∧ 23 < digitsToNat "13" + 12
        ∧ civilDay 0 0 < civilDay 0 (resetInstant 0 0 (digitsToNat "13" + 12) 0)) :=
  ⟨(parseResetTime_no_range_check (fun _ => none) 0 0 "13" "pm"
      (by decide) (by decide) (by decide) (Or.inr rfl)).1,
   (parseResetTime_no_range_check (fun _ => none) 0 0 "13" "pm"
      (by decide) (by decide) (by decide) (Or.inr rfl)).2 rfl (by decide)⟩

end Gastown

namespace Gastown

/-- Rendering of a service tag as the full address. -/
def renderTag : Option String → String
  | none => keychainServiceBase
  | some hx => keychainServiceBase ++ "-" ++ hx

theorem keychainServiceName_eq_renderTag (home p : String) :
    KeychainServiceName home p = renderTag (serviceTag home p) := by
  unfold KeychainServiceName serviceTag
  by_cases hd : expandTilde home p = defaultConfigPath home
  · rw [if_pos hd, if_pos hd]
    rfl
  · rw [if_neg hd, if_neg hd]
    rfl

theorem renderTag_inj (t1 t2 : Option String)
    (h : renderTag t1 = renderTag t2) : t1 = t2 := by
  cases t1 with
  | none =>
    cases t2 with
    | none => rfl
    | some h2 =>
      exfalso
      have hlen := congrArg String.length h
      simp only [renderTag, String.length_append] at hlen
      rw [show ("-" : String).length = 1 from rfl] at hlen
      omega
  | some h1 =>
    cases t2 with
    | none =>
      exfalso
      have hlen := congrArg String.length h
      simp only [renderTag, String.length_append] at hlen
      rw [show ("-" : String).length = 1 from rfl] at hlen
      omega
    | some h2 =>
      have hdata := congrArg String.data h
      simp only [renderTag, String.data_append, List.append_assoc,
        List.append_cancel_left_eq] at hdata
      rw [String.ext hdata]

/-- C8 (amended): `ServiceAddress` is a pure deterministic function of
the path; the default profile path (after tilde expansion) yields the
bare legacy address and every other path yields the base address plus
the 8-hex-character SHA-256 prefix of the expanded path; two addresses
coincide exactly when their derivation tags (default marker, or hex
suffix of the expanded path's hash) coincide — in particular two
distinct paths with the same tilde expansion yield the same address,
and two non-default paths yield distinct addresses exactly when their
hash prefixes differ. -/
theorem keychainServiceName_eq_iff :
    ∀ home p1 p2 : String,
      KeychainServiceName home p1 = KeychainServiceName home p2
        ↔ serviceTag home p1 = serviceTag home p2 := by
  intro home p1 p2
  rw [keychainServiceName_eq_renderTag, keychainServiceName_eq_renderTag]
  constructor
  · exact renderTag_inj _ _
  · intro h
    rw [h]

/-- Counterexample for C8 as frozen: the two distinct non-default paths
`~/work` and `/home/u/work` (with home directory `/home/u`) have the
same tilde expansion, hence the same service address — "two distinct
non-default paths yield distinct addresses" fails. -/
theorem keychainServiceName_distinct_cex :
    ("~/work" : String) ≠ "/home/u/work"
    ∧ expandTilde "/home/u" "~/work" ≠ defaultConfigPath "/home/u"
    ∧ expandTilde "/home/u" "/home/u/work" ≠ defaultConfigPath "/home/u"
    ∧ KeychainServiceName "/home/u" "~/work"
        = KeychainServiceName "/home/u" "/home/u/work" := by
  refine ⟨by decide, by decide, by decide, ?_⟩
  have h : expandTilde "/home/u" "~/work" = expandTilde "/home/u" "/home/u/work" := by
    decide
  unfold KeychainServiceName
  rw [h]

end Gastown

-- sanity examples (concrete evaluations of the embedding)
example : Gastown.matchReset "7pm" = some ("7", "", "pm") := by decide
example : Gastown.matchReset "3:30pm" = some ("3", "30", "pm") := by decide
example : Gastown.matchReset "11am" = some ("11", "", "am") := by decide
example : Gastown.matchReset "12AM" = some ("12", "", "AM") := by decide
example : Gastown.matchReset "garbage" = none := by decide
example : Gastown.matchReset "123am" = none := by decide
example : Gastown.matchReset "7 pm" = some ("7", "", "pm") := by decide
example : Gastown.matchReset "7pmx" = none := by decide
example : Gastown.matchReset "7:5pm" = none := by decide
example :
    Gastown.ParseResetTime (fun z => if z = "Z" then some 0 else none)
      "3:30pm (Z)" 0 0 = .ok 930 := rfl
example :
    Gastown.ParseResetTime (fun _ => none) "13pm" 0 0 = .ok 1500 := rfl
example :
    Gastown.ParseResetTime (fun _ => none) "12am" 100 0 = .ok 0 := rfl
example :
    Gastown.AvailableAccounts Gastown.specExampleState = ["c", "d", "a"] := by
  decide
example :
    Gastown.adjHour 12 "am" = 0 ∧ Gastown.adjHour 12 "pm" = 12
    ∧ Gastown.adjHour 7 "pm" = 19 ∧ Gastown.adjHour 11 "am" = 11 := by
  decide
example :
    Gastown.ParseResetTime (fun z => if z = "Z" then some 0 else none)
      "11am (Z)" 900 0 = .ok 660 := rfl
